import Mathlib

/-! nss-external: on-demand account provisioning behind the NSS lookup calls

A shallow embedding of `nss-external.go`.

* Go strings are modelled by Lean strings (sequences of characters).
* Go's `uint` is modelled by `Nat`, the one arithmetic operation of the
  program (`minUID + 1`) being reduced modulo `2 ^ 64`.
* The process-wide variable `nsscfg` is threaded explicitly as an
  `Option Config` (`none` is the nil pointer).
* Calls that reach outside the process (reading and writing the configuration
  file, `os.Stat`, `os.MkdirAll`, `os.Chown`, `fmt.Printf`) are recorded in a
  trace of `Effect`s; what they answer is supplied by an `Env`.
-/

namespace NssExternal

/-! ## Data model -/

/-- Number of values of Go's `uint` on a 64-bit target. -/
def uintModulus : Nat := 2 ^ 64

/-- Go's conversion `int(u)` of a `uint` to the signed type of the same width. -/
def uintToInt (u : Nat) : Int :=
  if u % uintModulus < 2 ^ 63 then ((u % uintModulus : Nat) : Int)
  else ((u % uintModulus : Nat) : Int) - (uintModulus : Int)

/-- Status codes of `go-libnss`. -/
inductive Status where
  | StatusTryagain
  | StatusUnavail
  | StatusNotfound
  | StatusSuccess
deriving DecidableEq, Repr

/-- The record `nssStructs.Passwd` of `go-libnss`. -/
structure Passwd where
  Username : String
  Password : String
  UID : Nat
  GID : Nat
  Gecos : String
  Dir : String
  Shell : String
deriving DecidableEq, Repr

/-- The struct `NSSConfig`. -/
structure NSSConfig where
  Home : String
  MinUID : Nat
  GroupIP : Nat
  Bash : String
  Suffix : List String
deriving DecidableEq, Repr

/-- The struct `Config`, the document kept in `/etc/nss_external.conf`. -/
structure Config where
  Users : List Passwd
  Nss : NSSConfig
deriving DecidableEq, Repr

/-- The zero value `nssStructs.Passwd{}`. -/
def Passwd.zero : Passwd :=
  { Username := "", Password := "", UID := 0, GID := 0, Gecos := "", Dir := "", Shell := "" }

/-- Path of the configuration file. -/
def confPath : String := "/etc/nss_external.conf"

/-! ## The outside world -/

/-- A call that leaves the process, with its arguments. -/
inductive Effect where
  | ReadFile (path : String)
  | Printf (text : String)
  | WriteFile (path : String) (data : String) (perm : Nat)
  | Stat (path : String)
  | MkdirAll (path : String) (perm : Nat)
  | Chown (path : String) (uid gid : Int)
deriving DecidableEq, Repr

/-- Answers of the library and system calls made during one lookup.

* `ReadFile`: content of the configuration file, `none` when reading fails.
* `Unmarshal`: the document `yaml.Unmarshal` leaves in a zero `Config` for a
  given content, and whether it reported an error (the program discards it).
* `Marshal`: the bytes `yaml.Marshal` returns, `none` when it fails.
* `WriteFile`, `Chown`: whether the call succeeded (the program discards it).
* `StatNotExist`: whether `os.IsNotExist` holds of the error of `os.Stat`.
* `MkdirAll`: the error text of `os.MkdirAll`, `none` when it succeeds.
* `FormatExt`: what `fmt.Sprintf` returns for a format that uses a directive
  outside the fragment of `doPrintf` below. -/
structure Env where
  ReadFile : Option String
  Unmarshal : String → Config × Bool
  Marshal : Config → Option String
  WriteFile : Bool
  StatNotExist : Bool
  MkdirAll : Option String
  Chown : Bool
  FormatExt : String → String → String

/-! ## Library functions: `strings.HasSuffix` and `fmt.Sprintf` -/

/-- Go's `strings.HasSuffix`:
`len(s) >= len(suffix) && s[len(s)-len(suffix):] == suffix`. -/
def HasSuffix (s suffix : String) : Bool :=
  decide (s.data.length ≥ suffix.data.length) &&
    decide (s.data.drop (s.data.length - suffix.data.length) = suffix.data)

/-- Characters that start a flag, a width, a precision or an argument index
after `%`: directives that carry one are outside the modelled fragment. -/
def startsModifier (c : Char) : Bool :=
  c = '#' || c = '+' || c = '-' || c = ' ' || c = '.' || c = '*' || c = '[' || c.isDigit

/-- Go's `printArg` for a string operand and a verb without flags: `%s` and
`%v` write the operand, `%T` its type, `%q`, `%x` and `%X` are outside the
fragment, every other verb is reported as a bad verb. -/
def printArg (arg : List Char) (verb : Char) : Option (List Char) :=
  if verb = 's' ∨ verb = 'v' then some arg
  else if verb = 'T' then some "string".data
  else if verb = 'q' ∨ verb = 'x' ∨ verb = 'X' then none
  else some ("%!".data ++ [verb] ++ "(string=".data ++ arg ++ [')'])

/-- What `doPrintf` appends when the operand was never consumed. -/
def extraArg (arg : List Char) (used : Bool) : List Char :=
  if used then [] else "%!(EXTRA string=".data ++ arg ++ [')']

/-- Go's `doPrintf` for one string operand; `used` tells whether the operand
has been consumed (`argNum = 1`). `none` when the format uses a directive
outside the fragment. -/
def doPrintf (arg : List Char) : List Char → Bool → Option (List Char)
  | [], used => some (extraArg arg used)
  | c :: [], used =>
    if c = '%' then some ("%!(NOVERB)".data ++ extraArg arg used)
    else some (c :: extraArg arg used)
  | c :: verb :: rest, used =>
    if c = '%' then
      if verb = '%' then (doPrintf arg rest used).map (fun out => '%' :: out)
      else if startsModifier verb then none
      else if used then
        (doPrintf arg rest used).map (fun out => "%!".data ++ [verb] ++ "(MISSING)".data ++ out)
      else
        match printArg arg verb with
        | none => none
        | some text => (doPrintf arg rest true).map (fun out => text ++ out)
    else (doPrintf arg (verb :: rest) used).map (fun out => c :: out)

/-- Go's `fmt.Sprintf(format, arg)` with one string operand. -/
def Sprintf (env : Env) (format arg : String) : String :=
  match doPrintf arg.data format.data false with
  | some out => String.mk out
  | none => env.FormatExt format arg

/-! ## The program -/

/-- Outcome of a lookup call: the two values it returns, the value of the
global `nsscfg` after the call, and the outside calls it made, in order. -/
structure Reply (α : Type) where
  status : Status
  value : α
  nsscfg : Option Config
  effects : List Effect

/-- The function `loadConfig`: the document it returns (to which `nsscfg`
points afterwards) and the outside calls it made. -/
def loadConfig (env : Env) (nsscfg : Option Config) : Config × List Effect :=
  match nsscfg with
  | some cfg => (cfg, [])
  | none =>
    match env.ReadFile with
    | none =>
      ({ Users := [],
         Nss := { Home := "/home/external/%s", MinUID := 10000, GroupIP := 1000,
                  Bash := "/bin/bash", Suffix := [] } },
       [Effect.ReadFile confPath])
    | some cfgfile => ((env.Unmarshal cfgfile).1, [Effect.ReadFile confPath])

/-- The method `PasswdAll`. -/
def PasswdAll (nsscfg : Option Config) : Reply (List Passwd) :=
  { status := Status.StatusSuccess, value := [], nsscfg := nsscfg, effects := [] }

/-- The loop over `cfg.Nss.Suffix` of `PasswdByName`: `false` when it leaves
the function with `StatusNotfound`, `true` when it runs to its end. -/
def suffixLoop (name : String) : List String → Bool
  | [] => true
  | suffix :: rest => if !HasSuffix name suffix then false else suffixLoop name rest

/-- How the loop over `cfg.Users` of `PasswdByName` ends: by returning a
stored user, or at the end of the slice with the final value of `minUID`. -/
inductive Scan where
  | found (user : Passwd)
  | missing (minUID : Nat)
deriving DecidableEq, Repr

/-- The loop over `cfg.Users` of `PasswdByName`, from a current `minUID`. -/
def usersLoop (name : String) : List Passwd → Nat → Scan
  | [], minUID => Scan.missing minUID
  | user :: rest, minUID =>
    if user.Username = name then Scan.found user
    else usersLoop name rest (if user.UID > minUID then user.UID else minUID)

/-- The outside calls of `PasswdByName` once the new record is appended. -/
def provisionEffects (env : Env) (cfg : Config) (home : String) (passwd : Passwd) :
    List Effect :=
  [Effect.WriteFile confPath ((env.Marshal cfg).getD "") 0o755, Effect.Stat home] ++
    (if env.StatNotExist then
      [Effect.MkdirAll home 0o775] ++
        (match env.MkdirAll with
          | some err => [Effect.Printf ("failed to create home directory " ++ err)]
          | none => []) ++
        [Effect.Chown home (uintToInt passwd.UID) (uintToInt passwd.GID)]
    else [])

/-- The method `PasswdByName`. -/
def PasswdByName (env : Env) (nsscfg : Option Config) (name : String) : Reply Passwd :=
  let loaded := loadConfig env nsscfg
  let cfg := loaded.1
  if suffixLoop name cfg.Nss.Suffix = false then
    { status := Status.StatusNotfound, value := Passwd.zero, nsscfg := some cfg,
      effects := loaded.2 }
  else
    match usersLoop name cfg.Users cfg.Nss.MinUID with
    | Scan.found user =>
      { status := Status.StatusSuccess, value := user, nsscfg := some cfg,
        effects := loaded.2 }
    | Scan.missing minUID =>
      let passwd : Passwd :=
        { Username := Sprintf env "%s" name,
          Password := "*",
          UID := (minUID + 1) % uintModulus,
          GID := cfg.Nss.GroupIP,
          Shell := cfg.Nss.Bash,
          Dir := Sprintf env cfg.Nss.Home name,
          Gecos := Sprintf env "external user %s" name }
      let cfg2 : Config := { cfg with Users := cfg.Users ++ [passwd] }
      { status := Status.StatusSuccess, value := passwd, nsscfg := some cfg2,
        effects := loaded.2 ++ [Effect.Printf "User doesn't exists, add it"] ++
          provisionEffects env cfg2 (Sprintf env cfg.Nss.Home name) passwd }

/-- The loop over `cfg.Users` of `PasswdByUid`. -/
def uidLoop (uid : Nat) : List Passwd → Option Passwd
  | [] => none
  | user :: rest => if user.UID = uid then some user else uidLoop uid rest

/-- The method `PasswdByUid`. -/
def PasswdByUid (env : Env) (nsscfg : Option Config) (uid : Nat) : Reply Passwd :=
  let loaded := loadConfig env nsscfg
  let cfg := loaded.1
  match uidLoop uid cfg.Users with
  | some user =>
    { status := Status.StatusSuccess, value := user, nsscfg := some cfg, effects := loaded.2 }
  | none =>
    { status := Status.StatusNotfound, value := Passwd.zero, nsscfg := some cfg,
      effects := loaded.2 }

/-! ## Sequences of lookup calls -/

/-- One call of the lookup interface, with the answers of the outside world
during that call. -/
inductive Call where
  | PasswdAll
  | PasswdByName (env : Env) (name : String)
  | PasswdByUid (env : Env) (uid : Nat)

/-- The value of `nsscfg` after one call. -/
def Call.run (nsscfg : Option Config) : Call → Option Config
  | Call.PasswdAll => (NssExternal.PasswdAll nsscfg).nsscfg
  | Call.PasswdByName env name => (NssExternal.PasswdByName env nsscfg name).nsscfg
  | Call.PasswdByUid env uid => (NssExternal.PasswdByUid env nsscfg uid).nsscfg

/-- The value of `nsscfg` after a sequence of calls, made in order. -/
def runCalls (nsscfg : Option Config) : List Call → Option Config
  | [] => nsscfg
  | call :: rest => runCalls (call.run nsscfg) rest

/-- Whether the call is one that can create an account: `PasswdByName`. -/
def Call.isByName : Call → Bool
  | Call.PasswdByName _ _ => true
  | _ => false

/-- The uids of the accounts of the cached document. -/
def storeUIDs : Option Config → List Nat
  | none => []
  | some cfg => cfg.Users.map Passwd.UID

/-- An environment in which the configuration file cannot be read, the home
directory does not exist yet, and every other outside call succeeds. -/
def quietEnv : Env :=
  { ReadFile := none, Unmarshal := fun _ => (⟨[], ⟨"", 0, 0, "", []⟩⟩, false),
    Marshal := fun _ => some "", WriteFile := true, StatNotExist := true,
    MkdirAll := none, Chown := true, FormatExt := fun format _ => format }


/-- The name ends with the suffix: it is some text followed by the suffix. -/
def EndsWith (name suffix : String) : Prop := ∃ front : String, name = front ++ suffix

/-! ## Sample documents -/

/-- A document with two accounts, floor 10000 and the one suffix `@corp`. -/
def corpCfg : Config :=
  { Users := [⟨"amy@corp", "*", 10001, 1000, "external user amy@corp",
                "/home/external/amy@corp", "/bin/bash"⟩,
              ⟨"bob@corp", "*", 10002, 1000, "external user bob@corp",
                "/home/external/bob@corp", "/bin/bash"⟩],
    Nss := ⟨"/home/external/%s", 10000, 1000, "/bin/bash", ["@corp"]⟩ }

/-- A document whose two accounts hold the least and the greatest `uint`. -/
def wrapCfg : Config :=
  { Users := [⟨"amy@corp", "*", 0, 1000, "external user amy@corp",
                "/home/external/amy@corp", "/bin/bash"⟩,
              ⟨"bob@corp", "*", 18446744073709551615, 1000, "external user bob@corp",
                "/home/external/bob@corp", "/bin/bash"⟩],
    Nss := ⟨"/home/external/%s", 10000, 1000, "/bin/bash", ["@corp"]⟩ }

/-- A document with one account and an empty list of admitted suffixes. -/
def openCfg : Config :=
  { Users := [⟨"amy", "*", 10001, 1000, "external user amy", "/home/external/amy",
                "/bin/bash"⟩],
    Nss := ⟨"/home/external/%s", 10000, 1000, "/bin/bash", []⟩ }

/-- A document without accounts that configures the two suffixes `@a` and `@b`. -/
def abCfg : Config :=
  { Users := [], Nss := ⟨"/home/external/%s", 10000, 1000, "/bin/bash", ["@a", "@b"]⟩ }

/-- The document of the end-to-end scenario: no account, floor 10000, a given
default gid, shell `/bin/bash`, home template `/home/external/%s` and the one
suffix `@corp`. -/
def scenarioCfg (gid : Nat) : Config :=
  { Users := [], Nss := ⟨"/home/external/%s", 10000, gid, "/bin/bash", ["@corp"]⟩ }

/-- A document that stores an account whose name lacks the configured suffix. -/
def legacyCfg : Config :=
  { Users := [⟨"amy@corp", "*", 10001, 1000, "external user amy@corp",
                "/home/external/amy@corp", "/bin/bash"⟩,
              ⟨"carol", "*", 10002, 1000, "external user carol",
                "/home/external/carol", "/bin/bash"⟩],
    Nss := ⟨"/home/external/%s", 10000, 1000, "/bin/bash", ["@corp"]⟩ }

/-! ## Further environments and observations -/

/-- The environment `env` with other outcomes of serialising the document,
writing the file, `os.Stat`, `os.MkdirAll` and `os.Chown`. -/
def Env.withOutcomes (env : Env) (marshal : Config → Option String) (written : Bool)
    (statNotExist : Bool) (mkdir : Option String) (chowned : Bool) : Env :=
  { env with Marshal := marshal, WriteFile := written, StatNotExist := statNotExist,
             MkdirAll := mkdir, Chown := chowned }

/-- An environment whose configuration file is read successfully but holds
text that is not YAML: `yaml.Unmarshal` reports an error and leaves the zero
`Config` it was given untouched. -/
def corruptEnv : Env :=
  { ReadFile := some "users: [",
    Unmarshal := fun _ => (⟨[], ⟨"", 0, 0, "", []⟩⟩, true),
    Marshal := fun _ => some "", WriteFile := true, StatNotExist := true,
    MkdirAll := none, Chown := true, FormatExt := fun format _ => format }

/-- The usernames of the accounts of the cached document. -/
def storeNames : Option Config → List String
  | none => []
  | some cfg => cfg.Users.map Passwd.Username

/-! ## Lemmas on the library functions -/

theorem hasSuffix_iff (s suffix : String) : HasSuffix s suffix = true ↔ EndsWith s suffix := by
  unfold HasSuffix EndsWith
  constructor
  · intro h
    simp only [Bool.and_eq_true, decide_eq_true_eq] at h
    refine ⟨String.mk (s.data.take (s.data.length - suffix.data.length)), ?_⟩
    apply String.ext
    have key := List.take_append_drop (s.data.length - suffix.data.length) s.data
    rw [h.2] at key
    rw [String.data_append]
    exact key.symm
  · rintro ⟨front, rfl⟩
    simp

theorem suffixLoop_iff (name : String) (suffixes : List String) :
    suffixLoop name suffixes = true ↔ ∀ suffix ∈ suffixes, EndsWith name suffix := by
  induction suffixes with
  | nil => simp [suffixLoop]
  | cons suffix rest ih =>
    by_cases h : HasSuffix name suffix = true
    · simp [suffixLoop, h, ih, (hasSuffix_iff name suffix).mp h]
    · have h2 : ¬ EndsWith name suffix := fun e => h ((hasSuffix_iff name suffix).mpr e)
      simp [suffixLoop, h, h2]

theorem doPrintf_cons_ne (arg : List Char) (c : Char) (rest : List Char) (used : Bool)
    (h : c ≠ '%') :
    doPrintf arg (c :: rest) used = (doPrintf arg rest used).map (fun out => c :: out) := by
  cases rest with
  | nil => simp [doPrintf, h]
  | cons d tail => simp [doPrintf, h]

theorem doPrintf_literal (arg text rest : List Char) (used : Bool) (h : '%' ∉ text) :
    doPrintf arg (text ++ rest) used = (doPrintf arg rest used).map (fun out => text ++ out) := by
  induction text with
  | nil => simp
  | cons c tail ih =>
    have hc : c ≠ '%' := fun e => h (by simp [e])
    have ht : '%' ∉ tail := fun e => h (by simp [e])
    rw [List.cons_append, doPrintf_cons_ne arg c _ used hc, ih ht]
    cases doPrintf arg rest used <;> simp

theorem doPrintf_plain (arg text : List Char) (h : '%' ∉ text) :
    doPrintf arg text true = some text := by
  have key := doPrintf_literal arg text [] true h
  simpa [doPrintf, extraArg] using key

theorem doPrintf_slot (arg rest : List Char) :
    doPrintf arg ('%' :: 's' :: rest) false
      = (doPrintf arg rest true).map (fun out => arg ++ out) := by
  simp [doPrintf, printArg, startsModifier]

theorem sprintf_one_slot (env : Env) (front back name : String)
    (hf : '%' ∉ front.data) (hb : '%' ∉ back.data) :
    Sprintf env (front ++ "%s" ++ back) name = front ++ name ++ back := by
  have hdata : (front ++ "%s" ++ back).data = front.data ++ ('%' :: 's' :: back.data) := by
    simp [String.data_append]
  unfold Sprintf
  rw [hdata, doPrintf_literal _ _ _ _ hf, doPrintf_slot, doPrintf_plain _ _ hb]
  apply String.ext
  simp [String.data_append]

theorem sprintf_verbatim (env : Env) (name : String) : Sprintf env "%s" name = name := by
  have key := sprintf_one_slot env "" "" name (by simp) (by simp)
  simpa using key

theorem sprintf_gecos (env : Env) (name : String) :
    Sprintf env "external user %s" name = "external user " ++ name := by
  have key := sprintf_one_slot env "external user " "" name (by decide) (by simp)
  simpa using key

/-! ## Lemmas on the loops -/

theorem exists_first {α : Type} (p : α → Prop) [DecidablePred p] (l : List α)
    (h : ∃ x ∈ l, p x) :
    ∃ front x back, l = front ++ x :: back ∧ (∀ y ∈ front, ¬ p y) ∧ p x := by
  induction l with
  | nil => simp at h
  | cons a tail ih =>
    by_cases ha : p a
    · exact ⟨[], a, tail, rfl, by simp, ha⟩
    · have h2 : ∃ x ∈ tail, p x := by
        obtain ⟨x, hx, hp⟩ := h
        rcases List.mem_cons.mp hx with rfl | hx
        · exact absurd hp ha
        · exact ⟨x, hx, hp⟩
      obtain ⟨front, x, back, he, hn, hp⟩ := ih h2
      refine ⟨a :: front, x, back, by simp [he], ?_, hp⟩
      intro y hy
      rcases List.mem_cons.mp hy with rfl | hy
      · exact ha
      · exact hn y hy

theorem usersLoop_missing (name : String) (users : List Passwd) (minUID : Nat)
    (h : ∀ u ∈ users, u.Username ≠ name) :
    usersLoop name users minUID = Scan.missing ((users.map Passwd.UID).foldl max minUID) := by
  induction users generalizing minUID with
  | nil => simp [usersLoop]
  | cons u rest ih =>
    have hu : u.Username ≠ name := h u (by simp)
    have hr : ∀ v ∈ rest, v.Username ≠ name := fun v hv => h v (by simp [hv])
    have hmax : (if u.UID > minUID then u.UID else minUID) = max minUID u.UID := by
      split <;> omega
    simp [usersLoop, hu, hmax, ih _ hr]

theorem usersLoop_append (name : String) (users more : List Passwd) (minUID : Nat) :
    usersLoop name (users ++ more) minUID =
      match usersLoop name users minUID with
      | Scan.found user => Scan.found user
      | Scan.missing m => usersLoop name more m := by
  induction users generalizing minUID with
  | nil => simp [usersLoop]
  | cons u rest ih =>
    by_cases hu : u.Username = name
    · simp [usersLoop, hu]
    · simp [usersLoop, hu, ih]

theorem usersLoop_found (name : String) (front back : List Passwd) (u : Passwd) (minUID : Nat)
    (hn : ∀ v ∈ front, v.Username ≠ name) (hu : u.Username = name) :
    usersLoop name (front ++ u :: back) minUID = Scan.found u := by
  rw [usersLoop_append, usersLoop_missing name front minUID hn]
  simp [usersLoop, hu]

theorem usersLoop_missing_inv (name : String) (users : List Passwd) (minUID m : Nat)
    (h : usersLoop name users minUID = Scan.missing m) : ∀ u ∈ users, u.Username ≠ name := by
  induction users generalizing minUID with
  | nil => simp
  | cons u rest ih =>
    by_cases hu : u.Username = name
    · simp [usersLoop, hu] at h
    · simp only [usersLoop, hu, if_false] at h
      intro v hv
      rcases List.mem_cons.mp hv with rfl | hv
      · exact hu
      · exact ih _ h v hv

theorem uidLoop_none (uid : Nat) (users : List Passwd) :
    uidLoop uid users = none ↔ ∀ u ∈ users, u.UID ≠ uid := by
  induction users with
  | nil => simp [uidLoop]
  | cons u rest ih =>
    by_cases hu : u.UID = uid
    · simp [uidLoop, hu]
    · simp [uidLoop, hu, ih]

theorem uidLoop_found (uid : Nat) (front back : List Passwd) (u : Passwd)
    (hn : ∀ v ∈ front, v.UID ≠ uid) (hu : u.UID = uid) :
    uidLoop uid (front ++ u :: back) = some u := by
  induction front with
  | nil => simp [uidLoop, hu]
  | cons v rest ih =>
    have hv : v.UID ≠ uid := hn v (by simp)
    have hr : ∀ w ∈ rest, w.UID ≠ uid := fun w hw => hn w (by simp [hw])
    simp [uidLoop, hv, ih hr]

/-! ## The three ways `PasswdByName` ends -/

theorem loadConfig_cached (env : Env) (cfg : Config) :
    loadConfig env (some cfg) = (cfg, []) := rfl

theorem passwdByName_rejected (env : Env) (nsscfg : Option Config) (name : String)
    (h : suffixLoop name (loadConfig env nsscfg).1.Nss.Suffix = false) :
    PasswdByName env nsscfg name =
      { status := Status.StatusNotfound, value := Passwd.zero,
        nsscfg := some (loadConfig env nsscfg).1, effects := (loadConfig env nsscfg).2 } := by
  simp [PasswdByName, h]

theorem passwdByName_found (env : Env) (nsscfg : Option Config) (name : String) (user : Passwd)
    (h : suffixLoop name (loadConfig env nsscfg).1.Nss.Suffix = true)
    (hs : usersLoop name (loadConfig env nsscfg).1.Users (loadConfig env nsscfg).1.Nss.MinUID
      = Scan.found user) :
    PasswdByName env nsscfg name =
      { status := Status.StatusSuccess, value := user,
        nsscfg := some (loadConfig env nsscfg).1, effects := (loadConfig env nsscfg).2 } := by
  simp [PasswdByName, h, hs]

theorem passwdByName_created (env : Env) (nsscfg : Option Config) (name : String) (minUID : Nat)
    (h : suffixLoop name (loadConfig env nsscfg).1.Nss.Suffix = true)
    (hs : usersLoop name (loadConfig env nsscfg).1.Users (loadConfig env nsscfg).1.Nss.MinUID
      = Scan.missing minUID) :
    (PasswdByName env nsscfg name).status = Status.StatusSuccess ∧
    (PasswdByName env nsscfg name).value =
      { Username := name, Password := "*", UID := (minUID + 1) % uintModulus,
        GID := (loadConfig env nsscfg).1.Nss.GroupIP,
        Gecos := "external user " ++ name,
        Dir := Sprintf env (loadConfig env nsscfg).1.Nss.Home name,
        Shell := (loadConfig env nsscfg).1.Nss.Bash } ∧
    (PasswdByName env nsscfg name).nsscfg =
      some { Users := (loadConfig env nsscfg).1.Users ++ [(PasswdByName env nsscfg name).value],
             Nss := (loadConfig env nsscfg).1.Nss } := by
  simp [PasswdByName, h, hs, sprintf_verbatim, sprintf_gecos]

/-! ## Lemmas on the running maximum -/

theorem foldl_max_ge_init (l : List Nat) (a : Nat) : a ≤ l.foldl max a := by
  induction l generalizing a with
  | nil => simp
  | cons x rest ih => exact le_trans (le_max_left a x) (ih (max a x))

theorem foldl_max_ge_mem (l : List Nat) (a : Nat) : ∀ x ∈ l, x ≤ l.foldl max a := by
  induction l generalizing a with
  | nil => simp
  | cons y rest ih =>
    intro x hx
    rcases List.mem_cons.mp hx with rfl | hx
    · exact le_trans (le_max_right a x) (foldl_max_ge_init rest (max a x))
    · exact ih (max a y) x hx

/-! ## UID allocation -/

/-- C1: when the name ends with every configured suffix, no stored account
carries it, and `max(F, u1..un) + 1` is below `2 ^ 64`, `PasswdByName` returns
`StatusSuccess` with an account whose UID is exactly `max(F, u1..un) + 1`,
which is `F + 1` when the store holds no account. -/
theorem passwdByName_uid_formula (env : Env) (cfg : Config) (name : String)
    (hends : ∀ suffix ∈ cfg.Nss.Suffix, EndsWith name suffix)
    (hnew : ∀ u ∈ cfg.Users, u.Username ≠ name)
    (hrange : (cfg.Users.map Passwd.UID).foldl max cfg.Nss.MinUID + 1 < uintModulus) :
    (PasswdByName env (some cfg) name).status = Status.StatusSuccess ∧
    (PasswdByName env (some cfg) name).value.UID
      = (cfg.Users.map Passwd.UID).foldl max cfg.Nss.MinUID + 1 ∧
    (cfg.Users = [] → (PasswdByName env (some cfg) name).value.UID = cfg.Nss.MinUID + 1) := by
  have hs := (suffixLoop_iff name cfg.Nss.Suffix).mpr hends
  have hscan := usersLoop_missing name cfg.Users cfg.Nss.MinUID hnew
  obtain ⟨h1, h2, _⟩ := passwdByName_created env (some cfg) name _ hs hscan
  have huid : (PasswdByName env (some cfg) name).value.UID
      = (cfg.Users.map Passwd.UID).foldl max cfg.Nss.MinUID + 1 := by
    rw [h2]
    exact Nat.mod_eq_of_lt hrange
  refine ⟨h1, huid, ?_⟩
  intro hempty
  rw [huid, hempty]
  rfl

/-- Witness of C1 on the sample document with uids 10001 and 10002. -/
theorem passwdByName_uid_formula_witness :
    EndsWith "eve@corp" "@corp" ∧
    (PasswdByName quietEnv (some corpCfg) "eve@corp").value.UID = 10003 :=
  ⟨⟨"eve", rfl⟩,
   (passwdByName_uid_formula quietEnv corpCfg "eve@corp"
      (by intro suffix hs
          have e : suffix = "@corp" := by simpa [corpCfg] using hs
          exact e ▸ ⟨"eve", rfl⟩)
      (by decide) (by decide)).2.1⟩

/-! ## Uniqueness of uids -/

theorem passwdByUid_hit (env : Env) (nsscfg : Option Config) (uid : Nat) (user : Passwd)
    (h : uidLoop uid (loadConfig env nsscfg).1.Users = some user) :
    PasswdByUid env nsscfg uid =
      { status := Status.StatusSuccess, value := user,
        nsscfg := some (loadConfig env nsscfg).1, effects := (loadConfig env nsscfg).2 } := by
  simp [PasswdByUid, h]

theorem passwdByUid_miss (env : Env) (nsscfg : Option Config) (uid : Nat)
    (h : uidLoop uid (loadConfig env nsscfg).1.Users = none) :
    PasswdByUid env nsscfg uid =
      { status := Status.StatusNotfound, value := Passwd.zero,
        nsscfg := some (loadConfig env nsscfg).1, effects := (loadConfig env nsscfg).2 } := by
  simp [PasswdByUid, h]

theorem passwdByUid_nsscfg (env : Env) (cfg : Config) (uid : Nat) :
    (PasswdByUid env (some cfg) uid).nsscfg = some cfg ∧
    (PasswdByUid env (some cfg) uid).effects = [] := by
  cases h : uidLoop uid cfg.Users with
  | none => rw [passwdByUid_miss env (some cfg) uid h]; exact ⟨rfl, rfl⟩
  | some user => rw [passwdByUid_hit env (some cfg) uid user h]; exact ⟨rfl, rfl⟩

theorem call_run_cases (call : Call) (cfg : Config) :
    call.run (some cfg) = some cfg ∨
    ∃ p : Passwd, call.isByName = true ∧
      p.UID = ((cfg.Users.map Passwd.UID).foldl max cfg.Nss.MinUID + 1) % uintModulus ∧
      (∀ u ∈ cfg.Users, u.Username ≠ p.Username) ∧
      call.run (some cfg) = some { Users := cfg.Users ++ [p], Nss := cfg.Nss } := by
  cases call with
  | PasswdAll => exact Or.inl rfl
  | PasswdByUid env uid => exact Or.inl (passwdByUid_nsscfg env cfg uid).1
  | PasswdByName env name =>
    show (PasswdByName env (some cfg) name).nsscfg = some cfg ∨ _
    cases hs : suffixLoop name cfg.Nss.Suffix with
    | false =>
      left
      rw [passwdByName_rejected env (some cfg) name hs]
      rfl
    | true =>
      cases hscan : usersLoop name cfg.Users cfg.Nss.MinUID with
      | found user =>
        left
        rw [passwdByName_found env (some cfg) name user hs hscan]
        rfl
      | missing minUID =>
        right
        have hnew := usersLoop_missing_inv name cfg.Users cfg.Nss.MinUID minUID hscan
        have hm := usersLoop_missing name cfg.Users cfg.Nss.MinUID hnew
        rw [hscan] at hm
        injection hm with hm
        obtain ⟨_, h2, h3⟩ := passwdByName_created env (some cfg) name minUID hs hscan
        refine ⟨(PasswdByName env (some cfg) name).value, rfl, ?_, ?_, h3⟩
        · rw [h2, hm]
        · rw [h2]
          exact hnew

theorem runCalls_nodup_aux (calls : List Call) :
    ∀ cfg : Config, (cfg.Users.map Passwd.UID).Nodup →
      (cfg.Users.map Passwd.UID).foldl max cfg.Nss.MinUID + calls.countP Call.isByName
        < uintModulus →
      (storeUIDs (runCalls (some cfg) calls)).Nodup := by
  induction calls with
  | nil => intro cfg hd _; exact hd
  | cons call rest ih =>
    intro cfg hd hb
    rcases call_run_cases call cfg with h | ⟨p, hcall, hp, _, h⟩
    · simp only [runCalls, h]
      have hcount := List.countP_le_length Call.isByName (l := rest)
      have hmono : rest.countP Call.isByName ≤ (call :: rest).countP Call.isByName := by
        rw [List.countP_cons]
        omega
      exact ih cfg hd (by omega)
    · simp only [runCalls, h]
      rw [List.countP_cons_of_pos _ _ hcall] at hb
      have hlt : (cfg.Users.map Passwd.UID).foldl max cfg.Nss.MinUID + 1 < uintModulus := by
        omega
      rw [Nat.mod_eq_of_lt hlt] at hp
      apply ih
      · simp only [List.map_append, List.map_cons, List.map_nil]
        rw [List.nodup_append]
        refine ⟨hd, List.nodup_singleton _, ?_⟩
        intro x hx hx2
        have hle := foldl_max_ge_mem (cfg.Users.map Passwd.UID) cfg.Nss.MinUID x hx
        have hx3 : x = p.UID := by simpa using hx2
        omega
      · simp only [List.map_append, List.map_cons, List.map_nil, List.foldl_append,
          List.foldl_cons, List.foldl_nil]
        rw [hp]
        have hmax : max ((cfg.Users.map Passwd.UID).foldl max cfg.Nss.MinUID)
            ((cfg.Users.map Passwd.UID).foldl max cfg.Nss.MinUID + 1)
            = (cfg.Users.map Passwd.UID).foldl max cfg.Nss.MinUID + 1 := by
          omega
        rw [hmax]
        omega

/-- C2, as stated, fails: the uids 0 and `2 ^ 64 - 1` of the sample document are
distinct, and one `PasswdByName` call for a new admitted name stores a second
account with uid 0. -/
theorem uid_unique_counterexample :
    (storeUIDs (some wrapCfg)).Nodup ∧
    ¬ (storeUIDs (runCalls (some wrapCfg) [Call.PasswdByName quietEnv "eve@corp"])).Nodup := by
  decide

/-- C2, amended: from a store whose uids are pairwise distinct, the uids are
still pairwise distinct after any sequence of `PasswdByName`, `PasswdByUid` and
`PasswdAll` calls, provided the greatest of the floor and the stored uids plus
the number of `PasswdByName` calls of the sequence stays below `2 ^ 64` (no
allocation wraps around). -/
theorem uid_unique_preserved (calls : List Call) (cfg : Config)
    (hdistinct : (storeUIDs (some cfg)).Nodup)
    (hrange :
      (cfg.Users.map Passwd.UID).foldl max cfg.Nss.MinUID + calls.countP Call.isByName
        < uintModulus) :
    (storeUIDs (runCalls (some cfg) calls)).Nodup :=
  runCalls_nodup_aux calls cfg hdistinct hrange

/-- Witness of C2: three calls on the sample document with uids 10001, 10002. -/
theorem uid_unique_preserved_witness :
    (storeUIDs (some corpCfg)).Nodup ∧
    (storeUIDs (runCalls (some corpCfg)
      [Call.PasswdByName quietEnv "eve@corp", Call.PasswdByUid quietEnv 10001,
       Call.PasswdByName quietEnv "dan@corp"])).Nodup :=
  ⟨by decide,
   uid_unique_preserved
     [Call.PasswdByName quietEnv "eve@corp", Call.PasswdByUid quietEnv 10001,
      Call.PasswdByName quietEnv "dan@corp"] corpCfg (by decide) (by decide)⟩

/-! ## Name resolution -/

/-- C3: when a first `PasswdByName` returns `StatusSuccess` with an account, a
second `PasswdByName` for the same name, made right after it in the same
process, returns `StatusSuccess` with the same account, leaves the cached
document as the first call left it, and makes no outside call (no write of the
document, no directory creation). -/
theorem passwdByName_idempotent (env1 env2 : Env) (nsscfg : Option Config) (name : String)
    (hfirst : (PasswdByName env1 nsscfg name).status = Status.StatusSuccess) :
    (PasswdByName env2 (PasswdByName env1 nsscfg name).nsscfg name).status
      = Status.StatusSuccess ∧
    (PasswdByName env2 (PasswdByName env1 nsscfg name).nsscfg name).value
      = (PasswdByName env1 nsscfg name).value ∧
    (PasswdByName env2 (PasswdByName env1 nsscfg name).nsscfg name).nsscfg
      = (PasswdByName env1 nsscfg name).nsscfg ∧
    (PasswdByName env2 (PasswdByName env1 nsscfg name).nsscfg name).effects = [] := by
  cases hs : suffixLoop name (loadConfig env1 nsscfg).1.Nss.Suffix with
  | false =>
    rw [passwdByName_rejected env1 nsscfg name hs] at hfirst
    cases hfirst
  | true =>
    cases hscan : usersLoop name (loadConfig env1 nsscfg).1.Users
        (loadConfig env1 nsscfg).1.Nss.MinUID with
    | found user =>
      rw [passwdByName_found env1 nsscfg name user hs hscan]
      rw [passwdByName_found env2 (some (loadConfig env1 nsscfg).1) name user hs hscan]
      exact ⟨rfl, rfl, rfl, rfl⟩
    | missing minUID =>
      obtain ⟨_, h2, h3⟩ := passwdByName_created env1 nsscfg name minUID hs hscan
      have huser : (PasswdByName env1 nsscfg name).value.Username = name := by rw [h2]
      have hscan2 : usersLoop name
          ((loadConfig env1 nsscfg).1.Users ++ [(PasswdByName env1 nsscfg name).value])
          (loadConfig env1 nsscfg).1.Nss.MinUID
          = Scan.found (PasswdByName env1 nsscfg name).value := by
        rw [usersLoop_append, hscan]
        simp [usersLoop, huser]
      rw [h3]
      rw [passwdByName_found env2
        (some { Users := (loadConfig env1 nsscfg).1.Users ++ [(PasswdByName env1 nsscfg name).value],
                Nss := (loadConfig env1 nsscfg).1.Nss })
        name (PasswdByName env1 nsscfg name).value hs hscan2]
      exact ⟨rfl, rfl, rfl, rfl⟩

/-- Witness of C3: a new name resolved twice on the sample document. -/
theorem passwdByName_idempotent_witness :
    (PasswdByName quietEnv (some corpCfg) "eve@corp").status = Status.StatusSuccess ∧
    (PasswdByName quietEnv (PasswdByName quietEnv (some corpCfg) "eve@corp").nsscfg
      "eve@corp").value = (PasswdByName quietEnv (some corpCfg) "eve@corp").value :=
  ⟨by decide,
   (passwdByName_idempotent quietEnv quietEnv (some corpCfg) "eve@corp" (by decide)).2.1⟩

/-- C4: when the name ends with every configured suffix and some stored
account carries it, `PasswdByName` returns `StatusSuccess` with the first such
account, exactly as stored; the cached document is unchanged and no outside
call is made. -/
theorem passwdByName_existing (env : Env) (cfg : Config) (name : String)
    (hends : ∀ suffix ∈ cfg.Nss.Suffix, EndsWith name suffix)
    (hstored : ∃ u ∈ cfg.Users, u.Username = name) :
    ∃ front u back, cfg.Users = front ++ u :: back ∧
      (∀ v ∈ front, v.Username ≠ name) ∧ u.Username = name ∧
      PasswdByName env (some cfg) name =
        { status := Status.StatusSuccess, value := u, nsscfg := some cfg, effects := [] } := by
  obtain ⟨front, u, back, he, hn, hu⟩ :=
    exists_first (fun v : Passwd => v.Username = name) cfg.Users hstored
  refine ⟨front, u, back, he, hn, hu, ?_⟩
  have hs := (suffixLoop_iff name cfg.Nss.Suffix).mpr hends
  have hscan : usersLoop name cfg.Users cfg.Nss.MinUID = Scan.found u := by
    rw [he]
    exact usersLoop_found name front back u cfg.Nss.MinUID hn hu
  exact passwdByName_found env (some cfg) name u hs hscan

/-- Witness of C4: the second account of the sample document is looked up. -/
theorem passwdByName_existing_witness :
    EndsWith "bob@corp" "@corp" ∧
    ∃ front u back, corpCfg.Users = front ++ u :: back ∧
      (∀ v ∈ front, v.Username ≠ "bob@corp") ∧ u.Username = "bob@corp" ∧
      PasswdByName quietEnv (some corpCfg) "bob@corp" =
        { status := Status.StatusSuccess, value := u, nsscfg := some corpCfg,
          effects := [] } :=
  ⟨⟨"bob", rfl⟩,
   passwdByName_existing quietEnv corpCfg "bob@corp"
     (by intro suffix hs
         have e : suffix = "@corp" := by simpa [corpCfg] using hs
         exact e ▸ ⟨"bob", rfl⟩)
     (by decide)⟩

/-! ## Admission by suffix -/

theorem suffixLoop_false_of_exists (name : String) (suffixes : List String)
    (h : ∃ suffix ∈ suffixes, ¬ EndsWith name suffix) : suffixLoop name suffixes = false := by
  cases hs : suffixLoop name suffixes with
  | false => rfl
  | true =>
    obtain ⟨suffix, hmem, hno⟩ := h
    exact absurd ((suffixLoop_iff name suffixes).mp hs suffix hmem) hno

theorem not_endsWith_of_hasSuffix_false (name suffix : String)
    (h : HasSuffix name suffix = false) : ¬ EndsWith name suffix := by
  intro e
  rw [(hasSuffix_iff name suffix).mpr e] at h
  cases h

/-- C5: admission is a conjunction over the configured suffixes.
`PasswdByName` returns `StatusSuccess` only if the name ends with every
configured suffix; when some configured suffix is not a suffix of the name it
returns `StatusNotfound` with the empty record; and when the suffix list is not
empty and the name ends with each of its members it returns `StatusSuccess`. -/
theorem passwdByName_suffix_and (env : Env) (cfg : Config) (name : String) :
    ((PasswdByName env (some cfg) name).status = Status.StatusSuccess →
      ∀ suffix ∈ cfg.Nss.Suffix, EndsWith name suffix) ∧
    ((∃ suffix ∈ cfg.Nss.Suffix, ¬ EndsWith name suffix) →
      (PasswdByName env (some cfg) name).status = Status.StatusNotfound ∧
      (PasswdByName env (some cfg) name).value = Passwd.zero) ∧
    (cfg.Nss.Suffix ≠ [] → (∀ suffix ∈ cfg.Nss.Suffix, EndsWith name suffix) →
      (PasswdByName env (some cfg) name).status = Status.StatusSuccess) := by
  refine ⟨?_, ?_, ?_⟩
  · intro hok
    cases hs : suffixLoop name cfg.Nss.Suffix with
    | false =>
      rw [passwdByName_rejected env (some cfg) name hs] at hok
      cases hok
    | true => exact (suffixLoop_iff name cfg.Nss.Suffix).mp hs
  · intro hbad
    have hs := suffixLoop_false_of_exists name cfg.Nss.Suffix hbad
    rw [passwdByName_rejected env (some cfg) name hs]
    exact ⟨rfl, rfl⟩
  · intro _ hall
    have hs := (suffixLoop_iff name cfg.Nss.Suffix).mpr hall
    cases hscan : usersLoop name cfg.Users cfg.Nss.MinUID with
    | found user =>
      rw [passwdByName_found env (some cfg) name user hs hscan]
    | missing minUID =>
      exact (passwdByName_created env (some cfg) name minUID hs hscan).1

/-- Witness of C5: with the suffixes `@a` and `@b`, a name that ends in `@b`
only is rejected. -/
theorem passwdByName_suffix_and_witness :
    EndsWith "x@b" "@b" ∧ ¬ EndsWith "x@b" "@a" ∧
    (PasswdByName quietEnv (some abCfg) "x@b").status = Status.StatusNotfound ∧
    (PasswdByName quietEnv (some abCfg) "x@b").value = Passwd.zero :=
  ⟨⟨"x", rfl⟩, not_endsWith_of_hasSuffix_false "x@b" "@a" (by decide),
   (passwdByName_suffix_and quietEnv abCfg "x@b").2.1
     ⟨"@a", by decide, not_endsWith_of_hasSuffix_false "x@b" "@a" (by decide)⟩⟩

/-- C6, as stated, fails: in a fresh process whose configuration file cannot
be read, the suffix list is the empty one of the default Policy, and the lookup
of `root` does not return `StatusNotfound`: it returns `StatusSuccess` and
stores a new account with uid 10001. -/
theorem passwdByName_empty_suffix_admits :
    (loadConfig quietEnv none).1.Nss.Suffix = [] ∧
    (PasswdByName quietEnv none "root").status ≠ Status.StatusNotfound ∧
    (PasswdByName quietEnv none "root").status = Status.StatusSuccess ∧
    (PasswdByName quietEnv none "root").value =
      { Username := "root", Password := "*", UID := 10001, GID := 1000,
        Gecos := "external user root", Dir := "/home/external/root", Shell := "/bin/bash" } ∧
    (PasswdByName quietEnv none "root").nsscfg =
      some { Users := [(PasswdByName quietEnv none "root").value],
             Nss := (loadConfig quietEnv none).1.Nss } := by
  decide

/-- C6, amended: when the configured list of admitted suffixes is empty (as in
the default Policy), `PasswdByName` admits every username: it returns
`StatusSuccess` with an account that carries the name, which is a stored
account, the document staying as it was and no outside call being made, when
some stored account carries the name, and otherwise a newly provisioned
account appended at the end of the account collection. -/
theorem passwdByName_empty_suffix_all (env : Env) (cfg : Config) (name : String)
    (hempty : cfg.Nss.Suffix = []) :
    (PasswdByName env (some cfg) name).status = Status.StatusSuccess ∧
    (PasswdByName env (some cfg) name).value.Username = name ∧
    ((∃ u ∈ cfg.Users, u.Username = name) →
      (PasswdByName env (some cfg) name).value ∈ cfg.Users ∧
      (PasswdByName env (some cfg) name).nsscfg = some cfg ∧
      (PasswdByName env (some cfg) name).effects = []) ∧
    ((∀ u ∈ cfg.Users, u.Username ≠ name) →
      (PasswdByName env (some cfg) name).nsscfg =
        some { Users := cfg.Users ++ [(PasswdByName env (some cfg) name).value],
               Nss := cfg.Nss }) := by
  have hs : suffixLoop name cfg.Nss.Suffix = true := by
    rw [hempty]
    rfl
  by_cases hstored : ∃ u ∈ cfg.Users, u.Username = name
  · obtain ⟨front, u, back, he, hn, hu⟩ :=
      exists_first (fun v : Passwd => v.Username = name) cfg.Users hstored
    have hscan : usersLoop name cfg.Users cfg.Nss.MinUID = Scan.found u := by
      rw [he]
      exact usersLoop_found name front back u cfg.Nss.MinUID hn hu
    have hmem : u ∈ cfg.Users := by
      rw [he]
      simp
    rw [passwdByName_found env (some cfg) name u hs hscan]
    refine ⟨rfl, hu, fun _ => ⟨hmem, rfl, rfl⟩, ?_⟩
    intro hnone
    exact absurd hu (hnone u hmem)
  · have hnew : ∀ u ∈ cfg.Users, u.Username ≠ name := fun u hu e => hstored ⟨u, hu, e⟩
    have hscan := usersLoop_missing name cfg.Users cfg.Nss.MinUID hnew
    obtain ⟨h1, h2, h3⟩ := passwdByName_created env (some cfg) name _ hs hscan
    refine ⟨h1, ?_, fun h => absurd h hstored, fun _ => h3⟩
    rw [h2]

/-- Witness of C6: the name `root`, without any suffix, on a document whose
suffix list is empty. -/
theorem passwdByName_empty_suffix_all_witness :
    openCfg.Nss.Suffix = [] ∧
    (PasswdByName quietEnv (some openCfg) "root").status = Status.StatusSuccess ∧
    (PasswdByName quietEnv (some openCfg) "root").value.Username = "root" :=
  ⟨rfl, (passwdByName_empty_suffix_all quietEnv openCfg "root" rfl).1,
   (passwdByName_empty_suffix_all quietEnv openCfg "root" rfl).2.1⟩

/-- C7: when some configured suffix is not a suffix of the name, `PasswdByName`
returns `StatusNotfound`, the cached document (Policy and accounts) is exactly
what it was, and no outside call is made (no write, no directory creation). -/
theorem passwdByName_reject_no_mutation (env : Env) (cfg : Config) (name : String)
    (hbad : ∃ suffix ∈ cfg.Nss.Suffix, ¬ EndsWith name suffix) :
    PasswdByName env (some cfg) name =
      { status := Status.StatusNotfound, value := Passwd.zero, nsscfg := some cfg,
        effects := [] } :=
  passwdByName_rejected env (some cfg) name
    (suffixLoop_false_of_exists name cfg.Nss.Suffix hbad)

/-- Witness of C7: a name of another domain on the sample document. -/
theorem passwdByName_reject_no_mutation_witness :
    ¬ EndsWith "bob@other" "@corp" ∧
    (PasswdByName quietEnv (some corpCfg) "bob@other").nsscfg = some corpCfg ∧
    (PasswdByName quietEnv (some corpCfg) "bob@other").effects = [] :=
  ⟨not_endsWith_of_hasSuffix_false "bob@other" "@corp" (by decide),
   by rw [passwdByName_reject_no_mutation quietEnv corpCfg "bob@other"
        ⟨"@corp", by decide, not_endsWith_of_hasSuffix_false "bob@other" "@corp" (by decide)⟩]
      exact ⟨rfl, rfl⟩⟩

/-! ## Shape of a new record -/

/-- C8: for an admitted name that no stored account carries, `PasswdByName`
returns `StatusSuccess` with an account whose Username is the name, Password is
`*`, GID and Shell are those of the Policy, Gecos is `external user ` followed
by the name, and Dir is `fmt.Sprintf` of the home template and the name, which
for a template with one `%s` slot is the template with the name put in the
slot; the new account collection is the old one with this account appended. -/
theorem passwdByName_new_record (env : Env) (cfg : Config) (name : String)
    (hends : ∀ suffix ∈ cfg.Nss.Suffix, EndsWith name suffix)
    (hnew : ∀ u ∈ cfg.Users, u.Username ≠ name) :
    (PasswdByName env (some cfg) name).status = Status.StatusSuccess ∧
    (PasswdByName env (some cfg) name).value.Username = name ∧
    (PasswdByName env (some cfg) name).value.Password = "*" ∧
    (PasswdByName env (some cfg) name).value.GID = cfg.Nss.GroupIP ∧
    (PasswdByName env (some cfg) name).value.Shell = cfg.Nss.Bash ∧
    (PasswdByName env (some cfg) name).value.Gecos = "external user " ++ name ∧
    (PasswdByName env (some cfg) name).value.Dir = Sprintf env cfg.Nss.Home name ∧
    (∀ front back : String, '%' ∉ front.data → '%' ∉ back.data →
      cfg.Nss.Home = front ++ "%s" ++ back →
      (PasswdByName env (some cfg) name).value.Dir = front ++ name ++ back) ∧
    (PasswdByName env (some cfg) name).nsscfg =
      some { Users := cfg.Users ++ [(PasswdByName env (some cfg) name).value],
             Nss := cfg.Nss } := by
  have hs := (suffixLoop_iff name cfg.Nss.Suffix).mpr hends
  have hscan := usersLoop_missing name cfg.Users cfg.Nss.MinUID hnew
  obtain ⟨h1, h2, h3⟩ := passwdByName_created env (some cfg) name _ hs hscan
  refine ⟨h1, ?_, ?_, ?_, ?_, ?_, ?_, ?_, h3⟩
  · rw [h2]
  · rw [h2]
  · rw [h2]; rfl
  · rw [h2]; rfl
  · rw [h2]
  · rw [h2]; rfl
  · intro front back hf hb hhome
    rw [h2]
    show Sprintf env cfg.Nss.Home name = front ++ name ++ back
    rw [hhome]
    exact sprintf_one_slot env front back name hf hb

/-- Witness of C8: a new name on the sample document, whose home template is
`/home/external/%s`. -/
theorem passwdByName_new_record_witness :
    EndsWith "eve@corp" "@corp" ∧
    (PasswdByName quietEnv (some corpCfg) "eve@corp").value.Dir
      = "/home/external/" ++ "eve@corp" ++ "" :=
  ⟨⟨"eve", rfl⟩,
   (passwdByName_new_record quietEnv corpCfg "eve@corp"
      (by intro suffix hs
          have e : suffix = "@corp" := by simpa [corpCfg] using hs
          exact e ▸ ⟨"eve", rfl⟩)
      (by decide)).2.2.2.2.2.2.2.1 "/home/external/" "" (by decide) (by decide) (by decide)⟩

/-! ## Lookup by uid -/

/-- C9: `PasswdByUid` returns `StatusSuccess` with the first stored account
whose UID is the requested one when there is one, and `StatusNotfound` with the
empty record exactly when no stored account has that UID. -/
theorem passwdByUid_lookup (env : Env) (cfg : Config) (uid : Nat) :
    ((∃ u ∈ cfg.Users, u.UID = uid) →
      ∃ front u back, cfg.Users = front ++ u :: back ∧
        (∀ v ∈ front, v.UID ≠ uid) ∧ u.UID = uid ∧
        (PasswdByUid env (some cfg) uid).status = Status.StatusSuccess ∧
        (PasswdByUid env (some cfg) uid).value = u) ∧
    ((PasswdByUid env (some cfg) uid).status = Status.StatusNotfound ↔
      ∀ u ∈ cfg.Users, u.UID ≠ uid) ∧
    ((PasswdByUid env (some cfg) uid).status = Status.StatusNotfound →
      (PasswdByUid env (some cfg) uid).value = Passwd.zero) := by
  refine ⟨?_, ?_, ?_⟩
  · intro hstored
    obtain ⟨front, u, back, he, hn, hu⟩ :=
      exists_first (fun v : Passwd => v.UID = uid) cfg.Users hstored
    have hloop : uidLoop uid cfg.Users = some u := by
      rw [he]
      exact uidLoop_found uid front back u hn hu
    refine ⟨front, u, back, he, hn, hu, ?_⟩
    rw [passwdByUid_hit env (some cfg) uid u hloop]
    exact ⟨rfl, rfl⟩
  · cases hloop : uidLoop uid cfg.Users with
    | none =>
      rw [passwdByUid_miss env (some cfg) uid hloop]
      exact ⟨fun _ => (uidLoop_none uid cfg.Users).mp hloop, fun _ => rfl⟩
    | some user =>
      rw [passwdByUid_hit env (some cfg) uid user hloop]
      constructor
      · intro h
        cases h
      · intro h
        have hnone := (uidLoop_none uid cfg.Users).mpr h
        rw [hloop] at hnone
        cases hnone
  · cases hloop : uidLoop uid cfg.Users with
    | none =>
      rw [passwdByUid_miss env (some cfg) uid hloop]
      intro _
      rfl
    | some user =>
      rw [passwdByUid_hit env (some cfg) uid user hloop]
      intro h
      cases h

/-- Witness of C9: uid 10002 on the sample document. -/
theorem passwdByUid_lookup_witness :
    ∃ front u back, corpCfg.Users = front ++ u :: back ∧
      (∀ v ∈ front, v.UID ≠ 10002) ∧ u.UID = 10002 ∧
      (PasswdByUid quietEnv (some corpCfg) 10002).status = Status.StatusSuccess ∧
      (PasswdByUid quietEnv (some corpCfg) 10002).value = u :=
  (passwdByUid_lookup quietEnv corpCfg 10002).1 (by decide)

/-- C10: `PasswdByUid` never creates an account: for every cached document and
every uid, the document (accounts and Policy) after the call is the one before
it, and no outside call is made; in a process that has no cached document yet,
the document after the call is the one `loadConfig` returns, untouched. -/
theorem passwdByUid_no_mutation (env : Env) (cfg : Config) (uid : Nat) :
    (PasswdByUid env (some cfg) uid).nsscfg = some cfg ∧
    (PasswdByUid env (some cfg) uid).effects = [] ∧
    (PasswdByUid env none uid).nsscfg = some (loadConfig env none).1 := by
  refine ⟨(passwdByUid_nsscfg env cfg uid).1, (passwdByUid_nsscfg env cfg uid).2, ?_⟩
  cases h : uidLoop uid (loadConfig env none).1.Users with
  | none => rw [passwdByUid_miss env none uid h]
  | some user => rw [passwdByUid_hit env none uid user h]

/-! ## The end-to-end scenario -/

/-- C11: from the empty store with floor 10000, shell `/bin/bash`, home
template `/home/external/%s` and suffix list `["@corp"]`, `PasswdByName` of
`jdoe@corp` returns `StatusSuccess` with uid 10001, the default gid, home
`/home/external/jdoe@corp` and shell `/bin/bash`; `PasswdByName` of `kdoe@corp`
then returns `StatusSuccess` with uid 10002; `PasswdByUid` of 10001 then returns
the `jdoe@corp` account and `PasswdByUid` of 99999 returns `StatusNotfound`. -/
theorem end_to_end_scenario (env1 env2 env3 env4 : Env) (gid : Nat) :
    let r1 := PasswdByName env1 (some (scenarioCfg gid)) "jdoe@corp"
    let r2 := PasswdByName env2 r1.nsscfg "kdoe@corp"
    let r3 := PasswdByUid env3 r2.nsscfg 10001
    let r4 := PasswdByUid env4 r3.nsscfg 99999
    r1.status = Status.StatusSuccess ∧
    r1.value = { Username := "jdoe@corp", Password := "*", UID := 10001, GID := gid,
                 Gecos := "external user jdoe@corp", Dir := "/home/external/jdoe@corp",
                 Shell := "/bin/bash" } ∧
    r2.status = Status.StatusSuccess ∧ r2.value.Username = "kdoe@corp" ∧
    r2.value.UID = 10002 ∧
    r3.status = Status.StatusSuccess ∧ r3.value = r1.value ∧
    r4.status = Status.StatusNotfound ∧ r4.value = Passwd.zero := by
  intro r1 r2 r3 r4
  exact ⟨rfl, rfl, rfl, rfl, rfl, rfl, rfl, rfl, rfl⟩

/-! ## Accounts are only ever appended -/

theorem runCalls_append_only (calls : List Call) :
    ∀ cfg : Config, ∃ added : List Passwd,
      runCalls (some cfg) calls = some { Users := cfg.Users ++ added, Nss := cfg.Nss } := by
  induction calls with
  | nil => intro cfg; exact ⟨[], by simp [runCalls]⟩
  | cons call rest ih =>
    intro cfg
    rcases call_run_cases call cfg with h | ⟨p, _, _, _, h⟩
    · obtain ⟨added, hrest⟩ := ih cfg
      exact ⟨added, by simp only [runCalls, h]; exact hrest⟩
    · obtain ⟨added, hrest⟩ := ih { Users := cfg.Users ++ [p], Nss := cfg.Nss }
      refine ⟨p :: added, ?_⟩
      simp only [runCalls, h]
      rw [hrest]
      simp

/-- C12: every lookup call (`PasswdByName`, `PasswdByUid`, `PasswdAll`, with any
argument) leaves a document whose account collection is the one before the
call followed by the accounts added, every stored account keeping its place
and its fields, and whose Policy is unchanged; the same holds of any sequence
of lookup calls. -/
theorem accounts_never_mutated (cfg : Config) (call : Call) (calls : List Call) :
    (∃ added : List Passwd,
      call.run (some cfg) = some { Users := cfg.Users ++ added, Nss := cfg.Nss }) ∧
    (∃ added : List Passwd,
      runCalls (some cfg) calls = some { Users := cfg.Users ++ added, Nss := cfg.Nss }) := by
  refine ⟨?_, runCalls_append_only calls cfg⟩
  rcases call_run_cases call cfg with h | ⟨p, _, _, _, h⟩
  · exact ⟨[], by rw [h]; simp⟩
  · exact ⟨[p], h⟩

/-! ## Outcomes of the outside calls -/

theorem usersLoop_found_inv (name : String) (users : List Passwd) (minUID : Nat) (user : Passwd)
    (h : usersLoop name users minUID = Scan.found user) :
    user ∈ users ∧ user.Username = name := by
  induction users generalizing minUID with
  | nil => simp [usersLoop] at h
  | cons u rest ih =>
    by_cases hu : u.Username = name
    · simp only [usersLoop, hu, if_true] at h
      injection h with h
      subst h
      exact ⟨by simp, hu⟩
    · simp only [usersLoop, hu, if_false] at h
      obtain ⟨hm, hn⟩ := ih _ h
      exact ⟨by simp [hm], hn⟩

theorem sprintf_withOutcomes (env : Env) (marshal : Config → Option String)
    (written statNotExist : Bool) (mkdir : Option String) (chowned : Bool)
    (format arg : String) :
    Sprintf (env.withOutcomes marshal written statNotExist mkdir chowned) format arg
      = Sprintf env format arg := rfl

/-- C13: for a name that ends with every configured suffix, `PasswdByName`
returns `StatusSuccess` with an account whose Username is the name, and the
status, the account and the resulting cached document are the same whatever
the outcomes of serialising the document, writing the file, `os.Stat`,
`os.MkdirAll` and `os.Chown`. -/
theorem passwdByName_outcomes_irrelevant (env : Env) (cfg : Config) (name : String)
    (marshal : Config → Option String) (written statNotExist : Bool)
    (mkdir : Option String) (chowned : Bool)
    (hends : ∀ suffix ∈ cfg.Nss.Suffix, EndsWith name suffix) :
    (PasswdByName env (some cfg) name).status = Status.StatusSuccess ∧
    (PasswdByName env (some cfg) name).value.Username = name ∧
    (PasswdByName (env.withOutcomes marshal written statNotExist mkdir chowned)
        (some cfg) name).status = (PasswdByName env (some cfg) name).status ∧
    (PasswdByName (env.withOutcomes marshal written statNotExist mkdir chowned)
        (some cfg) name).value = (PasswdByName env (some cfg) name).value ∧
    (PasswdByName (env.withOutcomes marshal written statNotExist mkdir chowned)
        (some cfg) name).nsscfg = (PasswdByName env (some cfg) name).nsscfg := by
  have hs := (suffixLoop_iff name cfg.Nss.Suffix).mpr hends
  cases hscan : usersLoop name cfg.Users cfg.Nss.MinUID with
  | found user =>
    rw [passwdByName_found env (some cfg) name user hs hscan,
      passwdByName_found (env.withOutcomes marshal written statNotExist mkdir chowned)
        (some cfg) name user hs hscan]
    exact ⟨rfl, (usersLoop_found_inv name cfg.Users cfg.Nss.MinUID user hscan).2,
      rfl, rfl, rfl⟩
  | missing minUID =>
    obtain ⟨h1, h2, h3⟩ := passwdByName_created env (some cfg) name minUID hs hscan
    obtain ⟨k1, k2, k3⟩ := passwdByName_created
      (env.withOutcomes marshal written statNotExist mkdir chowned) (some cfg) name minUID
      hs hscan
    have hval : (PasswdByName (env.withOutcomes marshal written statNotExist mkdir chowned)
        (some cfg) name).value = (PasswdByName env (some cfg) name).value := by
      rw [h2, k2, sprintf_withOutcomes]
      rfl
    refine ⟨h1, ?_, ?_, hval, ?_⟩
    · rw [h2]
    · rw [h1, k1]
    · rw [h3, k3, hval]
      rfl

/-- Witness of C13: a new name on the sample document, once with every outside
call succeeding and once with every one of them failing. -/
theorem passwdByName_outcomes_irrelevant_witness :
    EndsWith "eve@corp" "@corp" ∧
    (PasswdByName (quietEnv.withOutcomes (fun _ => none) false false (some "denied") false)
        (some corpCfg) "eve@corp").value = (PasswdByName quietEnv (some corpCfg) "eve@corp").value :=
  ⟨⟨"eve", rfl⟩,
   (passwdByName_outcomes_irrelevant quietEnv corpCfg "eve@corp" (fun _ => none) false false
      (some "denied") false
      (by intro suffix hs
          have e : suffix = "@corp" := by simpa [corpCfg] using hs
          exact e ▸ ⟨"eve", rfl⟩)).2.2.2.1⟩

/-! ## Loading the configuration -/

/-- C14: when no document is cached and reading the configuration file fails,
`loadConfig` returns the document with floor 10000, default gid 1000, shell
`/bin/bash`, home template `/home/external/%s`, no admitted suffix and no
account, and that document is the cached one after a lookup call. -/
theorem loadConfig_unreadable_default (env : Env) (hread : env.ReadFile = none) :
    (loadConfig env none).1 =
      { Users := [],
        Nss := { Home := "/home/external/%s", MinUID := 10000, GroupIP := 1000,
                 Bash := "/bin/bash", Suffix := [] } } ∧
    (∀ uid : Nat, (PasswdByUid env none uid).nsscfg =
      some { Users := [],
             Nss := { Home := "/home/external/%s", MinUID := 10000, GroupIP := 1000,
                      Bash := "/bin/bash", Suffix := [] } }) ∧
    (PasswdAll none).value = [] := by
  have hload : (loadConfig env none).1 =
      { Users := [],
        Nss := { Home := "/home/external/%s", MinUID := 10000, GroupIP := 1000,
                 Bash := "/bin/bash", Suffix := [] } } := by
    simp [loadConfig, hread]
  refine ⟨hload, ?_, rfl⟩
  intro uid
  have hnone : uidLoop uid (loadConfig env none).1.Users = none := by
    rw [hload]
    rfl
  rw [passwdByUid_miss env none uid hnone, hload]

/-- Witness of C14: the environment whose configuration file cannot be read. -/
theorem loadConfig_unreadable_default_witness :
    quietEnv.ReadFile = none ∧ (loadConfig quietEnv none).1.Nss.MinUID = 10000 ∧
    (loadConfig quietEnv none).1.Nss.GroupIP = 1000 :=
  ⟨rfl, by rw [(loadConfig_unreadable_default quietEnv rfl).1],
   by rw [(loadConfig_unreadable_default quietEnv rfl).1]⟩

/-- C15 at its failing input: the configuration file is read successfully, the
YAML decoder reports an error and leaves the zero document, and `loadConfig`
returns that zero document (floor 0, gid 0, empty shell and home template), not
the default document built when the file cannot be read. -/
theorem loadConfig_corrupt_not_default :
    corruptEnv.ReadFile = some "users: [" ∧
    (corruptEnv.Unmarshal "users: [").2 = true ∧
    (loadConfig corruptEnv none).1 =
      { Users := [], Nss := { Home := "", MinUID := 0, GroupIP := 0, Bash := "", Suffix := [] } } ∧
    (loadConfig corruptEnv none).1 ≠ (loadConfig quietEnv none).1 := by
  decide

/-! ## The allocation guarantee over machine integers -/

theorem created_summary (env : Env) (cfg : Config) (name : String)
    (hends : ∀ suffix ∈ cfg.Nss.Suffix, EndsWith name suffix)
    (hnew : ∀ u ∈ cfg.Users, u.Username ≠ name) :
    (PasswdByName env (some cfg) name).status = Status.StatusSuccess ∧
    (PasswdByName env (some cfg) name).value.Username = name ∧
    (PasswdByName env (some cfg) name).value.UID
      = ((cfg.Users.map Passwd.UID).foldl max cfg.Nss.MinUID + 1) % uintModulus ∧
    (PasswdByName env (some cfg) name).nsscfg =
      some { Users := cfg.Users ++ [(PasswdByName env (some cfg) name).value],
             Nss := cfg.Nss } := by
  have hs := (suffixLoop_iff name cfg.Nss.Suffix).mpr hends
  have hscan := usersLoop_missing name cfg.Users cfg.Nss.MinUID hnew
  obtain ⟨h1, h2, h3⟩ := passwdByName_created env (some cfg) name _ hs hscan
  refine ⟨h1, ?_, ?_, h3⟩
  · rw [h2]
  · rw [h2]

/-- C16, as stated, fails: on the sample document whose accounts hold the uids
0 and `2 ^ 64 - 1` (floor 10000), the uid given to the new admitted name
`eve@corp` is 0, which is neither above every stored uid nor at least the
floor plus one. -/
theorem uid_guarantee_counterexample :
    EndsWith "eve@corp" "@corp" ∧
    (∀ u ∈ wrapCfg.Users, u.Username ≠ "eve@corp" ∧ u.UID < uintModulus) ∧
    wrapCfg.Nss.MinUID < uintModulus ∧
    (PasswdByName quietEnv (some wrapCfg) "eve@corp").value.UID = 0 ∧
    ¬ (∀ u ∈ wrapCfg.Users, u.UID < (PasswdByName quietEnv (some wrapCfg) "eve@corp").value.UID) ∧
    ¬ (wrapCfg.Nss.MinUID + 1 ≤ (PasswdByName quietEnv (some wrapCfg) "eve@corp").value.UID) :=
  ⟨⟨"eve", rfl⟩, by decide, by decide, by decide, by decide, by decide⟩

/-- C16, amended: when the greatest of the floor and the stored uids is below
`2 ^ 64 - 1`, so that adding one does not wrap around, the UID that
`PasswdByName` assigns to a newly created account is strictly greater than
every stored uid and at least the floor plus one. -/
theorem uid_guarantee_below_wrap (env : Env) (cfg : Config) (name : String)
    (hends : ∀ suffix ∈ cfg.Nss.Suffix, EndsWith name suffix)
    (hnew : ∀ u ∈ cfg.Users, u.Username ≠ name)
    (hrange : (cfg.Users.map Passwd.UID).foldl max cfg.Nss.MinUID + 1 < uintModulus) :
    (∀ u ∈ cfg.Users, u.UID < (PasswdByName env (some cfg) name).value.UID) ∧
    cfg.Nss.MinUID + 1 ≤ (PasswdByName env (some cfg) name).value.UID := by
  obtain ⟨_, _, huid, _⟩ := created_summary env cfg name hends hnew
  rw [Nat.mod_eq_of_lt hrange] at huid
  rw [huid]
  constructor
  · intro u hu
    have hle := foldl_max_ge_mem (cfg.Users.map Passwd.UID) cfg.Nss.MinUID u.UID
      (List.mem_map_of_mem Passwd.UID hu)
    omega
  · have hle := foldl_max_ge_init (cfg.Users.map Passwd.UID) cfg.Nss.MinUID
    omega

/-- Witness of C16: a new name on the sample document with uids 10001, 10002. -/
theorem uid_guarantee_below_wrap_witness :
    EndsWith "dan@corp" "@corp" ∧
    (∀ u ∈ corpCfg.Users, u.UID < (PasswdByName quietEnv (some corpCfg) "dan@corp").value.UID) ∧
    corpCfg.Nss.MinUID + 1 ≤ (PasswdByName quietEnv (some corpCfg) "dan@corp").value.UID :=
  ⟨⟨"dan", rfl⟩,
   uid_guarantee_below_wrap quietEnv corpCfg "dan@corp"
     (by intro suffix hs
         have e : suffix = "@corp" := by simpa [corpCfg] using hs
         exact e ▸ ⟨"dan", rfl⟩)
     (by decide) (by decide)⟩

/-! ## Usernames are a key -/

theorem runCalls_names_nodup_aux (calls : List Call) :
    ∀ cfg : Config, (cfg.Users.map Passwd.Username).Nodup →
      (storeNames (runCalls (some cfg) calls)).Nodup := by
  induction calls with
  | nil => intro cfg hd; exact hd
  | cons call rest ih =>
    intro cfg hd
    rcases call_run_cases call cfg with h | ⟨p, _, _, hfresh, h⟩
    · simp only [runCalls, h]
      exact ih cfg hd
    · simp only [runCalls, h]
      apply ih
      simp only [List.map_append, List.map_cons, List.map_nil]
      rw [List.nodup_append]
      refine ⟨hd, List.nodup_singleton _, ?_⟩
      intro x hx hx2
      obtain ⟨u, hu, hux⟩ := List.mem_map.mp hx
      have hxp : x = p.Username := by simpa using hx2
      exact hfresh u hu (by rw [hux, hxp])

/-- C17: from a store whose account usernames are pairwise distinct, the
usernames are still pairwise distinct after any finite sequence of lookup
calls (`PasswdByName`, `PasswdByUid`, `PasswdAll`) with any arguments: an
account is created at most once per username. -/
theorem username_unique_preserved (calls : List Call) (cfg : Config)
    (hdistinct : (storeNames (some cfg)).Nodup) :
    (storeNames (runCalls (some cfg) calls)).Nodup :=
  runCalls_names_nodup_aux calls cfg hdistinct

/-- Witness of C17: the same new name looked up twice on the sample document. -/
theorem username_unique_preserved_witness :
    (storeNames (some corpCfg)).Nodup ∧
    (storeNames (runCalls (some corpCfg)
      [Call.PasswdByName quietEnv "eve@corp", Call.PasswdByName quietEnv "eve@corp",
       Call.PasswdByUid quietEnv 10003])).Nodup :=
  ⟨by decide,
   username_unique_preserved
     [Call.PasswdByName quietEnv "eve@corp", Call.PasswdByName quietEnv "eve@corp",
      Call.PasswdByUid quietEnv 10003] corpCfg (by decide)⟩

/-! ## Admission comes before the scan of the stored accounts -/

theorem uidLoop_of_mem (users : List Passwd) (u : Passwd) (hmem : u ∈ users) :
    ∃ v, uidLoop u.UID users = some v ∧ v.UID = u.UID ∧
      ((users.map Passwd.UID).Nodup → v = u) := by
  obtain ⟨front, v, back, he, hn, hv⟩ :=
    exists_first (fun w : Passwd => w.UID = u.UID) users ⟨u, hmem, rfl⟩
  refine ⟨v, ?_, hv, ?_⟩
  · rw [he]
    exact uidLoop_found u.UID front back v hn hv
  · intro hd
    rw [he] at hmem hd
    rcases List.mem_append.mp hmem with hf | hb
    · exact absurd rfl (hn u hf)
    · rcases List.mem_cons.mp hb with hvu | hback
      · exact hvu.symm
      · exfalso
        simp only [List.map_append, List.map_cons] at hd
        have hd2 := (List.nodup_append.mp hd).2.1
        have hnot := (List.nodup_cons.mp hd2).1
        apply hnot
        rw [hv]
        exact List.mem_map_of_mem Passwd.UID hback

/-- C18: when a stored account carries the name but the name fails to end with
some configured suffix, `PasswdByName` returns `StatusNotfound` with the empty
record, not the stored account, while `PasswdByUid` of that account's uid
returns `StatusSuccess` with an account of that uid, which is that very account,
carrying the name, when the stored uids are pairwise distinct. -/
theorem passwdByName_admission_first (env1 env2 : Env) (cfg : Config) (name : String)
    (u : Passwd) (hmem : u ∈ cfg.Users) (hname : u.Username = name)
    (hbad : ∃ suffix ∈ cfg.Nss.Suffix, ¬ EndsWith name suffix) :
    (PasswdByName env1 (some cfg) name).status = Status.StatusNotfound ∧
    (PasswdByName env1 (some cfg) name).value = Passwd.zero ∧
    (PasswdByUid env2 (some cfg) u.UID).status = Status.StatusSuccess ∧
    (PasswdByUid env2 (some cfg) u.UID).value.UID = u.UID ∧
    ((cfg.Users.map Passwd.UID).Nodup →
      (PasswdByUid env2 (some cfg) u.UID).value = u ∧
      (PasswdByUid env2 (some cfg) u.UID).value.Username = name) := by
  have hs := suffixLoop_false_of_exists name cfg.Nss.Suffix hbad
  obtain ⟨v, hloop, hv, hsame⟩ := uidLoop_of_mem cfg.Users u hmem
  rw [passwdByName_rejected env1 (some cfg) name hs,
    passwdByUid_hit env2 (some cfg) u.UID v hloop]
  refine ⟨rfl, rfl, rfl, hv, ?_⟩
  intro hd
  have hvu : v = u := hsame hd
  exact ⟨hvu, by rw [← hname, ← hvu]⟩

/-- Witness of C18: the stored account `carol` lacks the suffix `@corp`. -/
theorem passwdByName_admission_first_witness :
    ¬ EndsWith "carol" "@corp" ∧
    (PasswdByName quietEnv (some legacyCfg) "carol").status = Status.StatusNotfound ∧
    (PasswdByUid quietEnv (some legacyCfg) 10002).value.Username = "carol" :=
  ⟨not_endsWith_of_hasSuffix_false "carol" "@corp" (by decide),
   (passwdByName_admission_first quietEnv quietEnv legacyCfg "carol"
      ⟨"carol", "*", 10002, 1000, "external user carol", "/home/external/carol", "/bin/bash"⟩
      (by decide) rfl
      ⟨"@corp", by decide, not_endsWith_of_hasSuffix_false "carol" "@corp" (by decide)⟩).1,
   by decide⟩

/-! ## From a new name to its uid and back -/

/-- C19, as stated, fails: on the sample document whose accounts hold the uids
0 and `2 ^ 64 - 1`, `PasswdByName` creates `eve@corp` with uid 0, and the
`PasswdByUid` of that uid made right after returns the older account
`amy@corp`, not the new one. -/
theorem round_trip_counterexample :
    EndsWith "eve@corp" "@corp" ∧
    (∀ u ∈ wrapCfg.Users, u.Username ≠ "eve@corp") ∧
    (PasswdByName quietEnv (some wrapCfg) "eve@corp").status = Status.StatusSuccess ∧
    (PasswdByName quietEnv (some wrapCfg) "eve@corp").value.Username = "eve@corp" ∧
    (PasswdByUid quietEnv (PasswdByName quietEnv (some wrapCfg) "eve@corp").nsscfg
      (PasswdByName quietEnv (some wrapCfg) "eve@corp").value.UID).value.Username = "amy@corp" ∧
    (PasswdByUid quietEnv (PasswdByName quietEnv (some wrapCfg) "eve@corp").nsscfg
      (PasswdByName quietEnv (some wrapCfg) "eve@corp").value.UID).value
      ≠ (PasswdByName quietEnv (some wrapCfg) "eve@corp").value :=
  ⟨⟨"eve", rfl⟩, by decide, by decide, by decide, by decide, by decide⟩

/-- C19, amended: for an admitted name that no stored account carries, when
the greatest of the floor and the stored uids is below `2 ^ 64 - 1` (the
allocation does not wrap around), `PasswdByName` creates and returns an account
`a`, the `PasswdByUid` of `a.UID` made right after returns `StatusSuccess` with
exactly `a`, and so does `PasswdByName` of `a.Username`. -/
theorem round_trip_below_wrap (env1 env2 env3 : Env) (cfg : Config) (name : String)
    (hends : ∀ suffix ∈ cfg.Nss.Suffix, EndsWith name suffix)
    (hnew : ∀ u ∈ cfg.Users, u.Username ≠ name)
    (hrange : (cfg.Users.map Passwd.UID).foldl max cfg.Nss.MinUID + 1 < uintModulus) :
    (PasswdByName env1 (some cfg) name).status = Status.StatusSuccess ∧
    (PasswdByName env1 (some cfg) name).nsscfg =
      some { Users := cfg.Users ++ [(PasswdByName env1 (some cfg) name).value],
             Nss := cfg.Nss } ∧
    (PasswdByUid env2 (PasswdByName env1 (some cfg) name).nsscfg
      (PasswdByName env1 (some cfg) name).value.UID).status = Status.StatusSuccess ∧
    (PasswdByUid env2 (PasswdByName env1 (some cfg) name).nsscfg
      (PasswdByName env1 (some cfg) name).value.UID).value
      = (PasswdByName env1 (some cfg) name).value ∧
    (PasswdByName env3 (PasswdByName env1 (some cfg) name).nsscfg
      (PasswdByName env1 (some cfg) name).value.Username).status = Status.StatusSuccess ∧
    (PasswdByName env3 (PasswdByName env1 (some cfg) name).nsscfg
      (PasswdByName env1 (some cfg) name).value.Username).value
      = (PasswdByName env1 (some cfg) name).value := by
  obtain ⟨hstatus, huser, huid, hcfg⟩ := created_summary env1 cfg name hends hnew
  rw [Nat.mod_eq_of_lt hrange] at huid
  have hs := (suffixLoop_iff name cfg.Nss.Suffix).mpr hends
  have hfront : ∀ v ∈ cfg.Users, v.UID ≠ (PasswdByName env1 (some cfg) name).value.UID := by
    intro v hv
    have hle := foldl_max_ge_mem (cfg.Users.map Passwd.UID) cfg.Nss.MinUID v.UID
      (List.mem_map_of_mem Passwd.UID hv)
    omega
  have hloop : uidLoop (PasswdByName env1 (some cfg) name).value.UID
      (cfg.Users ++ [(PasswdByName env1 (some cfg) name).value])
      = some (PasswdByName env1 (some cfg) name).value :=
    uidLoop_found _ cfg.Users [] _ hfront rfl
  have hscan : usersLoop name (cfg.Users ++ [(PasswdByName env1 (some cfg) name).value])
      cfg.Nss.MinUID = Scan.found (PasswdByName env1 (some cfg) name).value := by
    rw [usersLoop_append, usersLoop_missing name cfg.Users cfg.Nss.MinUID hnew]
    simp [usersLoop, huser]
  refine ⟨hstatus, hcfg, ?_, ?_, ?_, ?_⟩
  · rw [hcfg, passwdByUid_hit env2 _ _ _ hloop]
  · rw [hcfg, passwdByUid_hit env2 _ _ _ hloop]
  · rw [huser, hcfg, passwdByName_found env3
      (some { Users := cfg.Users ++ [(PasswdByName env1 (some cfg) name).value],
              Nss := cfg.Nss }) name _ hs hscan]
  · rw [huser, hcfg, passwdByName_found env3
      (some { Users := cfg.Users ++ [(PasswdByName env1 (some cfg) name).value],
              Nss := cfg.Nss }) name _ hs hscan]

/-- Witness of C19: a new name on the sample document with uids 10001, 10002. -/
theorem round_trip_below_wrap_witness :
    EndsWith "eve@corp" "@corp" ∧
    (PasswdByUid quietEnv (PasswdByName quietEnv (some corpCfg) "eve@corp").nsscfg
      (PasswdByName quietEnv (some corpCfg) "eve@corp").value.UID).value
      = (PasswdByName quietEnv (some corpCfg) "eve@corp").value :=
  ⟨⟨"eve", rfl⟩,
   (round_trip_below_wrap quietEnv quietEnv quietEnv corpCfg "eve@corp"
      (by intro suffix hs
          have e : suffix = "@corp" := by simpa [corpCfg] using hs
          exact e ▸ ⟨"eve", rfl⟩)
      (by decide) (by decide)).2.2.2.1⟩

end NssExternal
